import Mathlib

/-!
Verification of the center-balanced line-breaking and caption-layout core of
the yorkerbot repository.  The definitions below are shallow embeddings of the
JavaScript functions in src/unnamed/part_000, src/unnamed/part_001 and
src/bot.js.  Pixel widths (JS numbers) are modelled as rationals, so all
arithmetic is exact; the JS truncation `|0` and `Math.ceil` are modelled
explicitly.
-/

namespace YorkerBot

/-- A measured word, the data model of §3: one whitespace-delimited token of
the caption together with its rendered pixel width. -/
structure MeasuredWord where
  text : String
  width : ℚ
deriving DecidableEq

/-- Loop state of calcAvgLineWidth (src/unnamed/part_000 lines 24-50,
src/bot.js lines 148-174): accumulated width of the greedy line being packed,
the running total of all word-plus-interior-space widths, and the greedy line
count. -/
structure CAState where
  lineWidth : ℚ
  totalTextWidth : ℚ
  linesNeeded : ℕ
deriving DecidableEq

/-- One iteration of the calcAvgLineWidth loop body: if the current greedy
line is non-empty and the word plus a space still fits, pack it (adding the
space); otherwise start a fresh line holding the word alone and bump the line
count.  On an empty line the word is added with no space and no fit check. -/
def caStep (spaceWidth maxTextWidth : ℚ) (s : CAState) (w : MeasuredWord) : CAState :=
  if s.lineWidth ≠ 0 then
    if s.lineWidth + spaceWidth + w.width ≤ maxTextWidth then
      { s with
        lineWidth := s.lineWidth + (w.width + spaceWidth)
        totalTextWidth := s.totalTextWidth + (w.width + spaceWidth) }
    else
      { lineWidth := w.width
        totalTextWidth := s.totalTextWidth + w.width
        linesNeeded := s.linesNeeded + 1 }
  else
    { s with
      lineWidth := s.lineWidth + w.width
      totalTextWidth := s.totalTextWidth + w.width }

/-- Pass 1, calcAvgLineWidth: the state after the greedy packing loop. -/
def caRun (spaceWidth maxTextWidth : ℚ) (words : List MeasuredWord) : CAState :=
  words.foldl (caStep spaceWidth maxTextWidth)
    { lineWidth := 0, totalTextWidth := 0, linesNeeded := 1 }

/-- Pass 1 result: the estimated line count and the average line width (the
running total divided by the line count). -/
def calcAvgLineWidth (words : List MeasuredWord) (spaceWidth maxTextWidth : ℚ) : ℕ × ℚ :=
  ((caRun spaceWidth maxTextWidth words).linesNeeded,
    (caRun spaceWidth maxTextWidth words).totalTextWidth /
      ((caRun spaceWidth maxTextWidth words).linesNeeded : ℚ))

/-- Loop state of createBalancedLines (src/unnamed/part_000 lines 52-92,
src/bot.js lines 86-126).  The JS code keeps only the text of each word in
lineWords and joins the texts when a line is closed; here the whole measured
word is kept and the projection to text happens in createBalancedLines, which
produces the identical output strings. -/
structure BLState where
  lines : List (List MeasuredWord)
  totalTextWidth : ℚ
  lineWords : List MeasuredWord
  lineWidth : ℚ
  cumAvgLineWidth : ℚ
  lastLine : Bool
deriving DecidableEq

/-- One iteration of the createBalancedLines loop body.  With a non-empty
current line, the line is closed (pushed, accumulators reset, the lastLine
flag recomputed as lines.length == linesNeeded, the cumulative average target
advanced) when the word plus a space would overflow maxTextWidth or when the
soft balancing constraint fires while the lastLine flag is off; otherwise the
word is appended with its space.  With an empty current line the word is
added with no space and no check. -/
def blStep (spaceWidth maxTextWidth avgLineWidth : ℚ) (linesNeeded : ℕ)
    (s : BLState) (w : MeasuredWord) : BLState :=
  if s.lineWidth ≠ 0 then
    if s.lineWidth + (w.width + spaceWidth) > maxTextWidth ∨
        (s.lastLine = false ∧ s.totalTextWidth + (w.width + spaceWidth) > s.cumAvgLineWidth) then
      { lines := s.lines ++ [s.lineWords]
        totalTextWidth := s.totalTextWidth + w.width
        lineWords := [w]
        lineWidth := w.width
        cumAvgLineWidth := s.cumAvgLineWidth + avgLineWidth
        lastLine := (s.lines ++ [s.lineWords]).length == linesNeeded }
    else
      { s with
        totalTextWidth := s.totalTextWidth + (w.width + spaceWidth)
        lineWords := s.lineWords ++ [w]
        lineWidth := s.lineWidth + (w.width + spaceWidth) }
  else
    { s with
      totalTextWidth := s.totalTextWidth + w.width
      lineWords := s.lineWords ++ [w]
      lineWidth := s.lineWidth + w.width }

/-- Initial state of the createBalancedLines loop; the lastLine flag starts
as linesNeeded == 1. -/
def blInit (avgLineWidth : ℚ) (linesNeeded : ℕ) : BLState :=
  { lines := [], totalTextWidth := 0, lineWords := [], lineWidth := 0,
    cumAvgLineWidth := avgLineWidth, lastLine := linesNeeded == 1 }

/-- The state after running the createBalancedLines loop over the words. -/
def blRun (spaceWidth maxTextWidth avgLineWidth : ℚ) (linesNeeded : ℕ)
    (words : List MeasuredWord) : BLState :=
  words.foldl (blStep spaceWidth maxTextWidth avgLineWidth linesNeeded)
    (blInit avgLineWidth linesNeeded)

/-- The flush after the loop: any remaining accumulated words become the
final line. -/
def flushLines (s : BLState) : List (List MeasuredWord) :=
  if s.lineWords.isEmpty then s.lines else s.lines ++ [s.lineWords]

/-- createBalancedLines at the level of word lists: the closed lines plus the
final flush of any remaining accumulated words. -/
def createBalancedLinesWords (words : List MeasuredWord) (spaceWidth : ℚ)
    (linesNeeded : ℕ) (avgLineWidth maxTextWidth : ℚ) : List (List MeasuredWord) :=
  flushLines (blRun spaceWidth maxTextWidth avgLineWidth linesNeeded words)

/-- Join a list of strings with single spaces, as JS Array.join with a
one-space separator does. -/
def joinWords : List String → String
  | [] => ""
  | [t] => t
  | t :: ts => t ++ " " ++ joinWords ts

/-- Pass 2, createBalancedLines: the line texts, each the space-joined
concatenation of the texts of the words assigned to it. -/
def createBalancedLines (words : List MeasuredWord) (spaceWidth : ℚ)
    (linesNeeded : ℕ) (avgLineWidth maxTextWidth : ℚ) : List String :=
  (createBalancedLinesWords words spaceWidth linesNeeded avgLineWidth maxTextWidth).map
    (fun l => joinWords (l.map MeasuredWord.text))

/-- The balance operation of §4.1: pass 1 followed by pass 2, exactly as
composed at the call sites in the source. -/
def balance (words : List MeasuredWord) (spaceWidth maxTextWidth : ℚ) : List String :=
  createBalancedLines words spaceWidth (calcAvgLineWidth words spaceWidth maxTextWidth).1
    (calcAvgLineWidth words spaceWidth maxTextWidth).2 maxTextWidth

/-- The balance operation at the level of word lists. -/
def balanceWords (words : List MeasuredWord) (spaceWidth maxTextWidth : ℚ) :
    List (List MeasuredWord) :=
  createBalancedLinesWords words spaceWidth (calcAvgLineWidth words spaceWidth maxTextWidth).1
    (calcAvgLineWidth words spaceWidth maxTextWidth).2 maxTextWidth

/-- JS whitespace test for the characters relevant to caption text (the
regex class in caption.split matches these separators). -/
def isWs (c : Char) : Bool :=
  c = ' ' || c = '\t' || c = '\n' || c = '\r'

/-- Split a character list on runs of whitespace, collapsing consecutive
separators, carrying the reversed current token as the accumulator. -/
def splitWsAux : List Char → List Char → List String
  | [], acc => if acc.isEmpty then [] else [String.mk acc.reverse]
  | c :: cs, acc =>
    if isWs c then
      if acc.isEmpty then splitWsAux cs []
      else String.mk acc.reverse :: splitWsAux cs []
    else splitWsAux cs (c :: acc)

/-- Re-split a string on whitespace into tokens, collapsing runs of
whitespace, as tokenization of captions does. -/
def splitWs (s : String) : List String :=
  splitWsAux s.data []

/-- A well-formed caption token per §3: non-empty and free of whitespace,
as produced by tokenizing a trimmed caption. -/
def goodToken (t : String) : Prop :=
  t.data ≠ [] ∧ ∀ c ∈ t.data, isWs c = false

instance (t : String) : Decidable (goodToken t) := by
  unfold goodToken
  infer_instance

/-- Sum of the measured widths of a list of words. -/
def sumW (l : List MeasuredWord) : ℚ :=
  (l.map MeasuredWord.width).sum

/-! ## Generic fold invariance -/

lemma foldlRec {α σ : Type} {P : σ → Prop} (f : σ → α → σ) :
    ∀ (l : List α) (s : σ), P s → (∀ t a, a ∈ l → P t → P (f t a)) → P (l.foldl f s) := by
  intro l
  induction l with
  | nil => intro s hs _; exact hs
  | cons a l ih =>
    intro s hs hstep
    exact ih (f s a) (hstep s a (by simp) hs)
      (fun t b hb ht => hstep t b (by simp [hb]) ht)

/-! ## Pass 2 preserves the words -/

/-- All words committed so far: the flattened closed lines followed by the
words accumulated on the current line. -/
def accumWords (s : BLState) : List MeasuredWord :=
  s.lines.flatten ++ s.lineWords

lemma accumWords_blStep (spaceWidth maxTextWidth avgLineWidth : ℚ) (linesNeeded : ℕ)
    (s : BLState) (w : MeasuredWord) :
    accumWords (blStep spaceWidth maxTextWidth avgLineWidth linesNeeded s w) =
      accumWords s ++ [w] := by
  unfold blStep accumWords
  split
  · split
    · simp [List.flatten_append]
    · simp
  · simp

lemma accumWords_foldl (spaceWidth maxTextWidth avgLineWidth : ℚ) (linesNeeded : ℕ) :
    ∀ (words : List MeasuredWord) (s : BLState),
      accumWords (words.foldl (blStep spaceWidth maxTextWidth avgLineWidth linesNeeded) s) =
        accumWords s ++ words := by
  intro words
  induction words with
  | nil => intro s; simp
  | cons w ws ih =>
    intro s
    simp [List.foldl_cons, ih, accumWords_blStep]

lemma accumWords_blRun (spaceWidth maxTextWidth avgLineWidth : ℚ) (linesNeeded : ℕ)
    (words : List MeasuredWord) :
    accumWords (blRun spaceWidth maxTextWidth avgLineWidth linesNeeded words) = words := by
  unfold blRun
  rw [accumWords_foldl]
  simp [accumWords, blInit]

/-- The words of pass 2's output lines are exactly the input words, in order,
each in exactly one line, whatever the linesNeeded and avgLineWidth inputs. -/
lemma createBalancedLinesWords_flatten (words : List MeasuredWord) (spaceWidth : ℚ)
    (linesNeeded : ℕ) (avgLineWidth maxTextWidth : ℚ) :
    (createBalancedLinesWords words spaceWidth linesNeeded avgLineWidth maxTextWidth).flatten
      = words := by
  unfold createBalancedLinesWords flushLines
  have h := accumWords_blRun spaceWidth maxTextWidth avgLineWidth linesNeeded words
  unfold accumWords at h
  split
  · rename_i hemp
    rw [List.isEmpty_iff] at hemp
    rw [hemp] at h
    simpa using h
  · rw [List.flatten_append]
    simpa using h

/-- Invariant of the pass 2 loop: closed lines are never empty, and an empty
current line has accumulated width zero. -/
def blNonempty (s : BLState) : Prop :=
  (∀ l ∈ s.lines, l ≠ []) ∧ (s.lineWords = [] → s.lineWidth = 0)

lemma blNonempty_blStep (spaceWidth maxTextWidth avgLineWidth : ℚ) (linesNeeded : ℕ)
    (s : BLState) (w : MeasuredWord) (h : blNonempty s) :
    blNonempty (blStep spaceWidth maxTextWidth avgLineWidth linesNeeded s w) := by
  obtain ⟨h1, h2⟩ := h
  unfold blStep blNonempty
  split
  · rename_i hlw
    split
    · constructor
      · intro l hl
        simp only [List.mem_append, List.mem_singleton] at hl
        rcases hl with hl | hl
        · exact h1 l hl
        · subst hl
          intro hnil
          exact hlw (h2 hnil)
      · simp
    · constructor
      · exact h1
      · simp
  · constructor
    · exact h1
    · simp

lemma blNonempty_blRun (spaceWidth maxTextWidth avgLineWidth : ℚ) (linesNeeded : ℕ)
    (words : List MeasuredWord) :
    blNonempty (blRun spaceWidth maxTextWidth avgLineWidth linesNeeded words) := by
  unfold blRun
  refine foldlRec _ words _ ?_ ?_
  · exact ⟨by simp [blInit], by simp [blInit]⟩
  · intro t a _ ht
    exact blNonempty_blStep spaceWidth maxTextWidth avgLineWidth linesNeeded t a ht

/-- Every line pass 2 outputs holds at least one word. -/
lemma createBalancedLinesWords_ne_nil (words : List MeasuredWord) (spaceWidth : ℚ)
    (linesNeeded : ℕ) (avgLineWidth maxTextWidth : ℚ) :
    ∀ l ∈ createBalancedLinesWords words spaceWidth linesNeeded avgLineWidth maxTextWidth,
      l ≠ [] := by
  have h := blNonempty_blRun spaceWidth maxTextWidth avgLineWidth linesNeeded words
  unfold createBalancedLinesWords flushLines
  split
  · exact h.1
  · rename_i hemp
    intro l hl
    simp only [List.mem_append, List.mem_singleton] at hl
    rcases hl with hl | hl
    · exact h.1 l hl
    · subst hl
      rw [List.isEmpty_iff] at hemp
      exact hemp

/-! ## Joining with single spaces and re-splitting on whitespace -/

lemma string_data_append (a b : String) : (a ++ b).data = a.data ++ b.data := by
  cases a; cases b; rfl

lemma string_mk_data (t : String) : String.mk t.data = t := by
  cases t; rfl

lemma joinWords_cons_cons (t t' : String) (ts : List String) :
    joinWords (t :: t' :: ts) = t ++ " " ++ joinWords (t' :: ts) := rfl

/-- Joining two non-empty groups of tokens with single spaces equals joining
each group, then joining the two results with one space. -/
lemma joinWords_append (l m : List String) (hl : l ≠ []) (hm : m ≠ []) :
    joinWords (l ++ m) = joinWords l ++ " " ++ joinWords m := by
  induction l with
  | nil => exact absurd rfl hl
  | cons a l ih =>
    cases l with
    | nil =>
      cases m with
      | nil => exact absurd rfl hm
      | cons b m => simp [joinWords_cons_cons, joinWords]
    | cons c l' =>
      have h := ih (by simp)
      calc joinWords ((a :: c :: l') ++ m)
          = a ++ " " ++ joinWords ((c :: l') ++ m) := rfl
        _ = a ++ " " ++ (joinWords (c :: l') ++ " " ++ joinWords m) := by rw [h]
        _ = (a ++ " " ++ joinWords (c :: l')) ++ " " ++ joinWords m := by
            cases a; cases joinWords (c :: l') with | _ d =>
            cases joinWords m with | _ e =>
            apply congrArg String.mk
            simp [string_data_append]
        _ = joinWords (a :: c :: l') ++ " " ++ joinWords m := rfl

/-- Joining per-line joined texts with single spaces equals joining the
flattened token list with single spaces, provided no line is empty. -/
lemma joinWords_map_flatten :
    ∀ (lss : List (List String)), (∀ l ∈ lss, l ≠ []) →
      joinWords (lss.map joinWords) = joinWords lss.flatten := by
  intro lss
  induction lss with
  | nil => intro _; rfl
  | cons l lss ih =>
    intro hne
    cases lss with
    | nil => simp [joinWords, List.flatten]
    | cons l' lss' =>
      have hl : l ≠ [] := hne l (by simp)
      have hflat : (l' :: lss').flatten ≠ [] := by
        have hl' : l' ≠ [] := hne l' (by simp)
        rw [List.flatten_cons]
        intro hcon
        rcases List.append_eq_nil.mp hcon with ⟨h1, _⟩
        exact hl' h1
      have ihh := ih (fun x hx => hne x (by simp [hx]))
      calc joinWords ((l :: l' :: lss').map joinWords)
          = joinWords (joinWords l :: (l' :: lss').map joinWords) := rfl
        _ = joinWords l ++ " " ++ joinWords ((l' :: lss').map joinWords) := by
            simp [joinWords_cons_cons]
        _ = joinWords l ++ " " ++ joinWords (l' :: lss').flatten := by rw [ihh]
        _ = joinWords (l ++ (l' :: lss').flatten) := (joinWords_append _ _ hl hflat).symm
        _ = joinWords (l :: l' :: lss').flatten := by simp

lemma splitWsAux_nonws (u : List Char) (hn : ∀ c ∈ u, isWs c = false) :
    ∀ (rest acc : List Char), splitWsAux (u ++ rest) acc = splitWsAux rest (u.reverse ++ acc) := by
  induction u with
  | nil => intro rest acc; simp
  | cons c u ih =>
    intro rest acc
    have hc : isWs c = false := hn c (by simp)
    have ihh := ih (fun d hd => hn d (by simp [hd])) rest (c :: acc)
    calc splitWsAux ((c :: u) ++ rest) acc
        = splitWsAux (u ++ rest) (c :: acc) := by simp [splitWsAux, hc]
      _ = splitWsAux rest (u.reverse ++ (c :: acc)) := ihh
      _ = splitWsAux rest ((c :: u).reverse ++ acc) := by
          simp [List.reverse_cons, List.append_assoc]

/-- Re-splitting on whitespace recovers the tokens from their space-joined
concatenation, for a non-empty list of well-formed tokens. -/
lemma splitWs_joinWords :
    ∀ (ts : List String), (∀ t ∈ ts, goodToken t) → ts ≠ [] →
      splitWs (joinWords ts) = ts := by
  intro ts
  induction ts with
  | nil => intro _ hne; exact absurd rfl hne
  | cons t ts ih =>
    intro hgood _
    obtain ⟨htne, htws⟩ := hgood t (by simp)
    cases ts with
    | nil =>
      show splitWsAux t.data [] = [t]
      have h := splitWsAux_nonws t.data htws [] []
      rw [List.append_nil] at h
      rw [h]
      have hrevne : t.data.reverse ≠ [] := by
        simpa using htne
      simp [splitWsAux, List.isEmpty_iff, hrevne, string_mk_data]
    | cons t' ts' =>
      have hjdata : (joinWords (t :: t' :: ts')).data
          = t.data ++ (' ' :: (joinWords (t' :: ts')).data) := by
        rw [joinWords_cons_cons]
        rw [string_data_append, string_data_append]
        simp
      show splitWsAux (joinWords (t :: t' :: ts')).data [] = t :: t' :: ts'
      rw [hjdata]
      rw [splitWsAux_nonws t.data htws _ []]
      rw [List.append_nil]
      have hrevne : t.data.reverse ≠ [] := by simpa using htne
      have hws : isWs ' ' = true := rfl
      have ihh := ih (fun x hx => hgood x (by simp [hx])) (by simp)
      calc splitWsAux (' ' :: (joinWords (t' :: ts')).data) t.data.reverse
          = String.mk t.data.reverse.reverse :: splitWsAux (joinWords (t' :: ts')).data [] := by
            simp [splitWsAux, hws, List.isEmpty_iff, hrevne]
        _ = t :: t' :: ts' := by
            rw [List.reverse_reverse, string_mk_data]
            exact congrArg _ ihh

/-! ## Claims about pass 1 -/

lemma caRun_linesNeeded_pos (spaceWidth maxTextWidth : ℚ) (words : List MeasuredWord) :
    1 ≤ (caRun spaceWidth maxTextWidth words).linesNeeded := by
  unfold caRun
  refine foldlRec (P := fun s => 1 ≤ CAState.linesNeeded s) _ words _ (by simp) ?_
  intro t a _ ht
  unfold caStep
  split
  · split
    · exact ht
    · simp
  · exact ht

/-- C10: calcAvgLineWidth always reports at least one line, so the division
producing the average line width never divides by zero, and on the empty
word list it returns the pair (1, 0). -/
theorem C10_linesNeeded_positive (words : List MeasuredWord) (spaceWidth maxTextWidth : ℚ) :
    1 ≤ (calcAvgLineWidth words spaceWidth maxTextWidth).1 ∧
    calcAvgLineWidth [] spaceWidth maxTextWidth = (1, 0) := by
  constructor
  · exact caRun_linesNeeded_pos spaceWidth maxTextWidth words
  · simp [calcAvgLineWidth, caRun]

/-! ## Claims about empty input -/

/-- C5 counterexample: on the empty word list, balance returns the empty
list of lines; it does not fail, and no InvalidInput condition exists in the
code. -/
theorem C5_counterexample : balance [] 1 100 = [] := rfl

/-- C5 (amended): for an empty caption (zero words after tokenization),
balance returns the empty list of lines without failing; the code has no
InvalidInput error path. -/
theorem C5_empty_balance (spaceWidth maxTextWidth : ℚ) :
    balance [] spaceWidth maxTextWidth = [] := rfl

/-! ## Claims about over-wide words -/

/-- C4: an over-wide word is never truncated, dropped or rejected: pass 2
keeps every input word exactly once for every word sequence, and for a
singleton sequence holding one word wider than maxTextWidth, balance returns
exactly one line consisting of that word. -/
theorem C4_overwide_word_kept (w : MeasuredWord) (spaceWidth maxTextWidth : ℚ)
    (hover : maxTextWidth < w.width) :
    balance [w] spaceWidth maxTextWidth = [w.text] ∧
    balanceWords [w] spaceWidth maxTextWidth = [[w]] ∧
    maxTextWidth < sumW [w] ∧
    ∀ words : List MeasuredWord,
      (balanceWords words spaceWidth maxTextWidth).flatten = words := by
  refine ⟨?_, ?_, ?_, ?_⟩
  · simp [balance, createBalancedLines, createBalancedLinesWords, flushLines, blRun, blInit,
      blStep, joinWords]
  · simp [balanceWords, createBalancedLinesWords, flushLines, blRun, blInit, blStep]
  · simpa [sumW] using hover
  · intro words
    exact createBalancedLinesWords_flatten words spaceWidth _ _ maxTextWidth

/-- Witness for C4 at a concrete over-wide word. -/
theorem C4_overwide_word_kept_witness :
    balance [⟨"LONG", 100⟩] 1 50 = ["LONG"] ∧
    balanceWords [⟨"LONG", 100⟩] 1 50 = [[⟨"LONG", 100⟩]] ∧
    (50 : ℚ) < sumW [⟨"LONG", 100⟩] ∧
    ∀ words : List MeasuredWord, (balanceWords words 1 50).flatten = words :=
  C4_overwide_word_kept ⟨"LONG", 100⟩ 1 50 (by norm_num)

/-! ## The worked six-word example -/

/-- The six words of the example in §8, each of width 40. -/
def sixWords : List MeasuredWord :=
  [⟨"one", 40⟩, ⟨"two", 40⟩, ⟨"three", 40⟩, ⟨"four", 40⟩, ⟨"five", 40⟩, ⟨"six", 40⟩]

/-- C7: on six words of width 40 with space width 10 and maxTextWidth 150,
pass 1 returns two lines needed with average width 140, and pass 2 produces
the two lines one-two-three and four-five-six, each of accumulated width
140. -/
theorem C7_six_word_example :
    calcAvgLineWidth sixWords 10 150 = (2, 140) ∧
    balance sixWords 10 150 = ["one two three", "four five six"] ∧
    (balanceWords sixWords 10 150).map (fun l => sumW l + ((l.length : ℚ) - 1) * 10)
      = [140, 140] := by
  refine ⟨?_, ?_, ?_⟩
  · norm_num [calcAvgLineWidth, caRun, caStep, sixWords, List.foldl]
  · norm_num [balance, calcAvgLineWidth, caRun, caStep, createBalancedLines,
      createBalancedLinesWords, flushLines, blRun, blInit, blStep, joinWords, sixWords,
      List.foldl]
    exact ⟨rfl, rfl⟩
  · norm_num [balanceWords, calcAvgLineWidth, caRun, caStep, createBalancedLinesWords,
      flushLines, blRun, blInit, blStep, sumW, sixWords, List.foldl]

/-! ## C1: balance loses, duplicates and reorders nothing -/

/-- C1: for a non-empty sequence of measured words whose texts are
well-formed tokens, balance returns a non-empty sequence of lines, and
joining those lines with single spaces and re-splitting on whitespace
reproduces exactly the original word texts in order. -/
theorem C1_balance_reproduces_words (words : List MeasuredWord) (spaceWidth maxTextWidth : ℚ)
    (hne : words ≠ []) (htok : ∀ w ∈ words, goodToken w.text) :
    balance words spaceWidth maxTextWidth ≠ [] ∧
    splitWs (joinWords (balance words spaceWidth maxTextWidth))
      = words.map MeasuredWord.text := by
  have hflat : (balanceWords words spaceWidth maxTextWidth).flatten = words :=
    createBalancedLinesWords_flatten words spaceWidth _ _ maxTextWidth
  have hlnn : ∀ l ∈ balanceWords words spaceWidth maxTextWidth, l ≠ [] :=
    createBalancedLinesWords_ne_nil words spaceWidth _ _ maxTextWidth
  have hbal : balance words spaceWidth maxTextWidth
      = (balanceWords words spaceWidth maxTextWidth).map
          (fun l => joinWords (l.map MeasuredWord.text)) := rfl
  have hRne : balanceWords words spaceWidth maxTextWidth ≠ [] := by
    intro hcon
    rw [hcon] at hflat
    exact hne hflat.symm
  constructor
  · rw [hbal]
    simpa using hRne
  · rw [hbal]
    have hmm : (balanceWords words spaceWidth maxTextWidth).map
          (fun l => joinWords (l.map MeasuredWord.text))
        = ((balanceWords words spaceWidth maxTextWidth).map
            (List.map MeasuredWord.text)).map joinWords := by
      rw [List.map_map]
      rfl
    rw [hmm]
    have hne2 : ∀ l ∈ (balanceWords words spaceWidth maxTextWidth).map
        (List.map MeasuredWord.text), l ≠ [] := by
      intro l hl
      rcases List.mem_map.mp hl with ⟨l0, hl0, rfl⟩
      simpa using hlnn l0 hl0
    rw [joinWords_map_flatten _ hne2]
    rw [← List.map_flatten, hflat]
    refine splitWs_joinWords _ ?_ ?_
    · intro t ht
      rcases List.mem_map.mp ht with ⟨w, hw, rfl⟩
      exact htok w hw
    · simpa using hne

/-- Witness for C1 at a concrete two-word input. -/
theorem C1_balance_reproduces_words_witness :
    balance [⟨"hi", 5⟩, ⟨"yo", 7⟩] 1 10 ≠ [] ∧
    splitWs (joinWords (balance [⟨"hi", 5⟩, ⟨"yo", 7⟩] 1 10))
      = List.map MeasuredWord.text [⟨"hi", 5⟩, ⟨"yo", 7⟩] :=
  C1_balance_reproduces_words [⟨"hi", 5⟩, ⟨"yo", 7⟩] 1 10 (by simp) (by decide)

/-! ## C2: the closing condition of pass 2 -/

/-- The value of the lastLine flag as a function of the closed lines: the
flag is initialized to linesNeeded == 1 while no line has been closed, and
each close recomputes it as the number of closed lines == linesNeeded. -/
def lastLineOf (linesNeeded : ℕ) (lines : List (List MeasuredWord)) : Bool :=
  if lines.isEmpty then linesNeeded == 1 else lines.length == linesNeeded

lemma lastLine_eq_lastLineOf (spaceWidth maxTextWidth avgLineWidth : ℚ) (linesNeeded : ℕ)
    (words : List MeasuredWord) :
    (blRun spaceWidth maxTextWidth avgLineWidth linesNeeded words).lastLine
      = lastLineOf linesNeeded (blRun spaceWidth maxTextWidth avgLineWidth linesNeeded words).lines := by
  unfold blRun
  refine foldlRec
    (P := fun s => BLState.lastLine s = lastLineOf linesNeeded (BLState.lines s)) _ words _ ?_ ?_
  · simp [blInit, lastLineOf]
  · intro t a _ ht
    unfold blStep
    split
    · split
      · simp [lastLineOf]
      · exact ht
    · exact ht

/-- C2 (amended): while the current line is non-empty, pass 2 closes it on a
word exactly when (a) the word plus a space would overflow maxTextWidth, or
(b) the lastLine flag is off and the cumulative total text width plus the
word's addition exceeds the cumulative average target.  The lastLine flag
equals linesNeeded == 1 before any close and, after a close, the number of
closed lines == linesNeeded — so the soft constraint is suppressed while
building line linesNeeded + 1 (or line 1 when linesNeeded = 1), not while
building line linesNeeded as the claim states. -/
theorem C2_close_condition (spaceWidth maxTextWidth avgLineWidth : ℚ) (linesNeeded : ℕ)
    (words : List MeasuredWord) (s : BLState) (w : MeasuredWord)
    (hs : s = blRun spaceWidth maxTextWidth avgLineWidth linesNeeded words)
    (hlw : s.lineWidth ≠ 0) :
    s.lastLine = lastLineOf linesNeeded s.lines ∧
    ((blStep spaceWidth maxTextWidth avgLineWidth linesNeeded s w).lines
        = s.lines ++ [s.lineWords] ↔
      (s.lineWidth + (w.width + spaceWidth) > maxTextWidth ∨
        (s.lastLine = false ∧
          s.totalTextWidth + (w.width + spaceWidth) > s.cumAvgLineWidth))) := by
  constructor
  · rw [hs]
    exact lastLine_eq_lastLineOf spaceWidth maxTextWidth avgLineWidth linesNeeded words
  · unfold blStep
    rw [if_pos hlw]
    by_cases hcond : s.lineWidth + (w.width + spaceWidth) > maxTextWidth ∨
        (s.lastLine = false ∧ s.totalTextWidth + (w.width + spaceWidth) > s.cumAvgLineWidth)
    · rw [if_pos hcond]
      simpa using hcond
    · rw [if_neg hcond]
      constructor
      · intro heq
        exfalso
        have := congrArg List.length heq
        simp at this
      · intro hc
        exact absurd hc hcond

/-- Witness for C2 at the reachable state after one word of width 10. -/
theorem C2_close_condition_witness :
    (⟨[], 10, [⟨"A", 10⟩], 10, 5, false⟩ : BLState).lastLine
        = lastLineOf 2 (⟨[], 10, [⟨"A", 10⟩], 10, 5, false⟩ : BLState).lines ∧
    ((blStep 10 1000 5 2 (⟨[], 10, [⟨"A", 10⟩], 10, 5, false⟩ : BLState) ⟨"B", 10⟩).lines
        = (⟨[], 10, [⟨"A", 10⟩], 10, 5, false⟩ : BLState).lines
            ++ [(⟨[], 10, [⟨"A", 10⟩], 10, 5, false⟩ : BLState).lineWords] ↔
      ((⟨[], 10, [⟨"A", 10⟩], 10, 5, false⟩ : BLState).lineWidth + ((⟨"B", 10⟩ : MeasuredWord).width + 10) > 1000 ∨
        ((⟨[], 10, [⟨"A", 10⟩], 10, 5, false⟩ : BLState).lastLine = false ∧
          (⟨[], 10, [⟨"A", 10⟩], 10, 5, false⟩ : BLState).totalTextWidth + ((⟨"B", 10⟩ : MeasuredWord).width + 10)
            > (⟨[], 10, [⟨"A", 10⟩], 10, 5, false⟩ : BLState).cumAvgLineWidth))) :=
  C2_close_condition 10 1000 5 2 [⟨"A", 10⟩] ⟨[], 10, [⟨"A", 10⟩], 10, 5, false⟩ ⟨"B", 10⟩
    (by norm_num [blRun, blInit, blStep, List.foldl]) (by norm_num)

/-- Modelled from the claim C2 wording only, for comparison with the code:
the soft constraint is gated by the number of lines closed so far being
strictly less than linesNeeded - 1, so that it is suppressed on the final
line and the last line absorbs all remaining words.  The lastLine field of
the state is unused by this variant. -/
def blStepClaimed (spaceWidth maxTextWidth avgLineWidth : ℚ) (linesNeeded : ℕ)
    (s : BLState) (w : MeasuredWord) : BLState :=
  if s.lineWidth ≠ 0 then
    if s.lineWidth + (w.width + spaceWidth) > maxTextWidth ∨
        (s.lines.length < linesNeeded - 1 ∧
          s.totalTextWidth + (w.width + spaceWidth) > s.cumAvgLineWidth) then
      { lines := s.lines ++ [s.lineWords]
        totalTextWidth := s.totalTextWidth + w.width
        lineWords := [w]
        lineWidth := w.width
        cumAvgLineWidth := s.cumAvgLineWidth + avgLineWidth
        lastLine := (s.lines ++ [s.lineWords]).length == linesNeeded }
    else
      { s with
        totalTextWidth := s.totalTextWidth + (w.width + spaceWidth)
        lineWords := s.lineWords ++ [w]
        lineWidth := s.lineWidth + (w.width + spaceWidth) }
  else
    { s with
      totalTextWidth := s.totalTextWidth + w.width
      lineWords := s.lineWords ++ [w]
      lineWidth := s.lineWidth + w.width }

/-- Modelled from the claim C2 wording only: the full pass 2 with the
claimed gate for the soft constraint. -/
def createBalancedLinesClaimed (words : List MeasuredWord) (spaceWidth : ℚ)
    (linesNeeded : ℕ) (avgLineWidth maxTextWidth : ℚ) : List String :=
  (flushLines (words.foldl (blStepClaimed spaceWidth maxTextWidth avgLineWidth linesNeeded)
      (blInit avgLineWidth linesNeeded))).map
    (fun l => joinWords (l.map MeasuredWord.text))

/-- C2 counterexample: with linesNeeded = 2, after one closed line the code
still applies the soft constraint (the lastLine flag is 1 == 2, false) and
closes a second line, producing three lines, whereas the rule stated in the
claim suppresses the constraint once one line is closed (1 is not less than
linesNeeded - 1) and would let the second line absorb the rest, producing
two lines. -/
theorem C2_counterexample :
    createBalancedLines [⟨"A", 10⟩, ⟨"B", 10⟩, ⟨"C", 10⟩] 10 2 5 1000 = ["A", "B", "C"] ∧
    createBalancedLinesClaimed [⟨"A", 10⟩, ⟨"B", 10⟩, ⟨"C", 10⟩] 10 2 5 1000 = ["A", "B C"] := by
  constructor
  · norm_num [createBalancedLines, createBalancedLinesWords, flushLines, blRun, blInit, blStep,
      joinWords, List.foldl]
  · norm_num [createBalancedLinesClaimed, flushLines, blInit, blStepClaimed, joinWords,
      List.foldl]
    rfl

/-! ## C3: lines of two or more words never exceed the column width -/

/-- Invariant of the pass 2 loop for width accounting, for positive word
widths and a non-negative space width: every closed line of at least two
words fits in maxTextWidth with its interior spaces; the accumulated line
width equals the widths of the current words plus interior spaces; a current
line of at least two words fits; an empty current line has width zero and a
non-empty one has positive width. -/
def blWidthInv (spaceWidth maxTextWidth : ℚ) (s : BLState) : Prop :=
  (∀ l ∈ s.lines, 2 ≤ l.length →
      sumW l + ((l.length : ℚ) - 1) * spaceWidth ≤ maxTextWidth) ∧
  (s.lineWords ≠ [] →
      s.lineWidth = sumW s.lineWords + ((s.lineWords.length : ℚ) - 1) * spaceWidth) ∧
  (2 ≤ s.lineWords.length → s.lineWidth ≤ maxTextWidth) ∧
  (s.lineWords = [] → s.lineWidth = 0) ∧
  (s.lineWords ≠ [] → 0 < s.lineWidth)

lemma sumW_append_single (l : List MeasuredWord) (w : MeasuredWord) :
    sumW (l ++ [w]) = sumW l + w.width := by
  simp [sumW]

lemma blWidthInv_step (spaceWidth maxTextWidth avgLineWidth : ℚ) (linesNeeded : ℕ)
    (s : BLState) (w : MeasuredWord) (hsw : 0 ≤ spaceWidth) (hw : 0 < w.width)
    (h : blWidthInv spaceWidth maxTextWidth s) :
    blWidthInv spaceWidth maxTextWidth
      (blStep spaceWidth maxTextWidth avgLineWidth linesNeeded s w) := by
  obtain ⟨hclosed, hformula, hbound, hempty, hpos⟩ := h
  unfold blStep
  split
  · rename_i hlw
    have hwne : s.lineWords ≠ [] := fun hnil => hlw (hempty hnil)
    split
    · refine ⟨?_, ?_, ?_, ?_, ?_⟩
      · intro l hl h2
        simp only [List.mem_append, List.mem_singleton] at hl
        rcases hl with hl | hl
        · exact hclosed l hl h2
        · subst hl
          rw [← hformula hwne]
          exact hbound h2
      · intro _
        simp [sumW]
      · simp
      · simp
      · intro _
        exact hw
    · rename_i hcond
      push_neg at hcond
      obtain ⟨hfit, _⟩ := hcond
      refine ⟨hclosed, ?_, ?_, ?_, ?_⟩
      · intro _
        rw [hformula hwne, sumW_append_single]
        have hlen : ((s.lineWords ++ [w]).length : ℚ) = (s.lineWords.length : ℚ) + 1 := by
          push_cast [List.length_append, List.length_singleton]
          ring
        rw [hlen]
        ring
      · intro _
        exact hfit
      · simp
      · intro _
        have := hpos hwne
        show 0 < s.lineWidth + (w.width + spaceWidth)
        linarith
  · rename_i hlw
    push_neg at hlw
    have hwnil : s.lineWords = [] := by
      by_contra hcon
      have := hpos hcon
      rw [hlw] at this
      exact absurd this (by norm_num)
    refine ⟨hclosed, ?_, ?_, ?_, ?_⟩
    · intro _
      rw [hwnil, hlw]
      simp [sumW]
    · rw [hwnil]
      intro h2
      simp at h2
    · simp
    · intro _
      show 0 < s.lineWidth + w.width
      rw [hlw]
      linarith

lemma blWidthInv_blRun (spaceWidth maxTextWidth avgLineWidth : ℚ) (linesNeeded : ℕ)
    (words : List MeasuredWord) (hsw : 0 ≤ spaceWidth)
    (hpos : ∀ w ∈ words, 0 < w.width) :
    blWidthInv spaceWidth maxTextWidth
      (blRun spaceWidth maxTextWidth avgLineWidth linesNeeded words) := by
  unfold blRun
  refine foldlRec _ words _ ?_ ?_
  · exact ⟨by simp [blInit], by simp [blInit], by simp [blInit], by simp [blInit],
      by simp [blInit]⟩
  · intro t a ha ht
    exact blWidthInv_step spaceWidth maxTextWidth avgLineWidth linesNeeded t a hsw
      (hpos a ha) ht

/-- C3: for positive word widths and a non-negative space width, every line
pass 2 outputs that holds two or more words satisfies the width bound: the
sum of its word widths plus one space width per interior gap is at most
maxTextWidth.  (A line holding a single word is exempt and may overflow.) -/
theorem C3_multiword_lines_fit (words : List MeasuredWord) (spaceWidth : ℚ)
    (linesNeeded : ℕ) (avgLineWidth maxTextWidth : ℚ)
    (hpos : ∀ w ∈ words, 0 < w.width) (hsw : 0 ≤ spaceWidth) :
    ∀ l ∈ createBalancedLinesWords words spaceWidth linesNeeded avgLineWidth maxTextWidth,
      2 ≤ l.length → sumW l + ((l.length : ℚ) - 1) * spaceWidth ≤ maxTextWidth := by
  have h := blWidthInv_blRun spaceWidth maxTextWidth avgLineWidth linesNeeded words hsw hpos
  obtain ⟨hclosed, hformula, hbound, _, _⟩ := h
  unfold createBalancedLinesWords flushLines
  split
  · exact hclosed
  · rename_i hemp
    rw [List.isEmpty_iff] at hemp
    intro l hl h2
    simp only [List.mem_append, List.mem_singleton] at hl
    rcases hl with hl | hl
    · exact hclosed l hl h2
    · subst hl
      rw [← hformula hemp]
      exact hbound h2

/-- Witness for C3 at a concrete two-word line that exactly fills the
column. -/
theorem C3_multiword_lines_fit_witness :
    sumW [⟨"ab", 5⟩, ⟨"cd", 5⟩]
        + ((([⟨"ab", 5⟩, ⟨"cd", 5⟩] : List MeasuredWord).length : ℚ) - 1) * 1 ≤ 11 :=
  C3_multiword_lines_fit [⟨"ab", 5⟩, ⟨"cd", 5⟩] 1 1 1000 11
    (by norm_num) (by norm_num) [⟨"ab", 5⟩, ⟨"cd", 5⟩]
    (by norm_num [createBalancedLinesWords, flushLines, blRun, blInit, blStep, List.foldl])
    (by norm_num)

/-! ## Caption layout geometry -/

/-- JS `|0` on the non-extreme values used here: truncation toward zero. -/
def jsTrunc (q : ℚ) : ℚ :=
  if 0 ≤ q then (⌊q⌋ : ℚ) else -(⌊-q⌋ : ℚ)

/-- JS Math.ceil. -/
def jsCeil (q : ℚ) : ℚ :=
  (⌈q⌉ : ℚ)

/-- A measured caption line: its text, re-measured width, and height. -/
structure Line where
  text : String
  width : ℚ
  height : ℚ
deriving DecidableEq

/-- A placement rectangle. -/
structure Rect where
  x : ℚ
  y : ℚ
  w : ℚ
  h : ℚ
deriving DecidableEq

/-- The position at which a line of text is drawn. -/
structure LinePos where
  x : ℚ
  y : ℚ
  text : String
deriving DecidableEq

/-- The computed geometry of the composition: canvas size, image placement
rectangle, and one placement point per line. -/
structure LayoutPlan where
  canvasWidth : ℚ
  canvasHeight : ℚ
  imageRect : Rect
  linePositions : List LinePos
deriving DecidableEq

/-- The layout configuration of the canvas variant in src/unnamed/part_001
(the CAPTION_DEFAULT_OPTS record, minus font and color options, which do not
enter the geometry). -/
structure CanvasOpts where
  captionMarginSides : ℚ
  captionMarginTop : ℚ
  lineSpacing : ℚ
  outerPadding : ℚ
  resizeComicWidth : ℚ
deriving DecidableEq

/-- comicHeight = (scaleFactor * imageHeight)|0 with
scaleFactor = comicWidth / imageWidth, as computed by every _caption
variant. -/
def scaledComicHeight (comicWidth imageWidth imageHeight : ℚ) : ℚ :=
  jsTrunc (comicWidth / imageWidth * imageHeight)

/-- captionHeight of the canvas variants (src/unnamed/part_001 lines
155-159): Math.ceil of total line height plus inter-line spacing plus the
top caption margin. -/
def captionHeightCanvas (lines : List Line) (lineSpacing captionMarginTop : ℚ) : ℚ :=
  jsCeil ((lines.map Line.height).sum + ((lines.length : ℚ) - 1) * lineSpacing
    + captionMarginTop)

/-- The per-line draw positions (src/unnamed/part_001 lines 174-179): each
line is centered against its own measured width, and y advances by the line
height plus the line spacing. -/
def linePositionsFrom (finalImageWidth lineSpacing : ℚ) : ℚ → List Line → List LinePos
  | _, [] => []
  | y, l :: ls =>
    ⟨(finalImageWidth - l.width) / 2, y, l.text⟩ ::
      linePositionsFrom finalImageWidth lineSpacing (y + l.height + lineSpacing) ls

/-- The geometry computed by _caption in src/unnamed/part_001 (lines
117-179), with the measured lines supplied by the external measurement
capability: canvas size, image placement at (outerPadding, outerPadding)
scaled to comicWidth by comicHeight, and the per-line text positions
starting below the image and the top caption margin. -/
def captionLayoutCanvas (imageWidth imageHeight : ℚ) (lines : List Line)
    (o : CanvasOpts) : LayoutPlan :=
  { canvasWidth := o.resizeComicWidth + 2 * o.outerPadding
    canvasHeight := scaledComicHeight o.resizeComicWidth imageWidth imageHeight
      + 2 * o.outerPadding + captionHeightCanvas lines o.lineSpacing o.captionMarginTop
    imageRect := ⟨o.outerPadding, o.outerPadding, o.resizeComicWidth,
      scaledComicHeight o.resizeComicWidth imageWidth imageHeight⟩
    linePositions := linePositionsFrom (o.resizeComicWidth + 2 * o.outerPadding)
      o.lineSpacing
      (o.outerPadding + scaledComicHeight o.resizeComicWidth imageWidth imageHeight
        + o.captionMarginTop) lines }

/-- The square adjustment of _caption in src/unnamed/part_000 (lines
164-166): if the canvas is taller than wide and the height-to-width
quotient is at most 1.75 (= 7/4), widen the canvas to a square; otherwise
leave it unchanged. -/
def squareAdjust (canvasWidth canvasHeight : ℚ) : ℚ × ℚ :=
  if canvasWidth < canvasHeight ∧ canvasHeight / canvasWidth ≤ 7 / 4 then
    (canvasHeight, canvasHeight)
  else
    (canvasWidth, canvasHeight)

/-- C6: the square adjustment never changes canvasHeight and never decreases
canvasWidth; it fires exactly when canvasWidth < canvasHeight and the
height-to-width quotient is at most 1.75, in which case it makes the canvas
an exact square, and otherwise it leaves the canvas unchanged.  The
positivity hypothesis keeps the rational division faithful to the JS
division (in JS a zero width gives an infinite quotient and no adjustment). -/
theorem C6_squareAdjust_only_widens (w h : ℚ) (hw : 0 < w) :
    (squareAdjust w h).2 = h ∧
    w ≤ (squareAdjust w h).1 ∧
    ((w < h ∧ h / w ≤ 7 / 4) → squareAdjust w h = (h, h)) ∧
    (¬(w < h ∧ h / w ≤ 7 / 4) → squareAdjust w h = (w, h)) := by
  unfold squareAdjust
  by_cases hc : w < h ∧ h / w ≤ 7 / 4
  · rw [if_pos hc]
    exact ⟨rfl, le_of_lt hc.1, fun _ => rfl, fun hn => absurd hc hn⟩
  · rw [if_neg hc]
    exact ⟨rfl, le_refl w, fun hcc => absurd hcc hc, fun _ => rfl⟩

/-- Witness for C6 at a 400 by 500 canvas, which the adjustment squares. -/
theorem C6_squareAdjust_only_widens_witness :
    (squareAdjust 400 500).2 = 500 ∧
    (400 : ℚ) ≤ (squareAdjust 400 500).1 ∧
    (((400 : ℚ) < 500 ∧ (500 : ℚ) / 400 ≤ 7 / 4) → squareAdjust 400 500 = (500, 500)) ∧
    (¬((400 : ℚ) < 500 ∧ (500 : ℚ) / 400 ≤ 7 / 4) → squareAdjust 400 500 = (400, 500)) :=
  C6_squareAdjust_only_widens 400 500 (by norm_num)

/-- C8: the worked layout example of §8 for the part_001 variant: a 1200 by
800 image scaled to width 600 gives a scaled height of 400, a pre-text
canvas of 640 by 440, a text block of height 45 for one line of height 20
with marginTop 25, a final canvas of 640 by 485, the image rectangle
(20, 20, 600, 400), and a line drawn at y = 445. -/
theorem C8_layout_example (t : String) (wd : ℚ) :
    scaledComicHeight 600 1200 800 = 400 ∧
    scaledComicHeight 600 1200 800 + 2 * 20 = 440 ∧
    captionHeightCanvas [⟨t, wd, 20⟩] 2 25 = 45 ∧
    captionLayoutCanvas 1200 800 [⟨t, wd, 20⟩] ⟨40, 25, 2, 20, 600⟩ =
      ⟨640, 485, ⟨20, 20, 600, 400⟩, [⟨(640 - wd) / 2, 445, t⟩]⟩ := by
  have hsc : scaledComicHeight 600 1200 800 = 400 := by
    norm_num [scaledComicHeight, jsTrunc]
  have hch : captionHeightCanvas [⟨t, wd, 20⟩] 2 25 = 45 := by
    norm_num [captionHeightCanvas, jsCeil]
  refine ⟨hsc, by rw [hsc]; norm_num, hch, ?_⟩
  unfold captionLayoutCanvas
  rw [hsc, hch]
  norm_num [linePositionsFrom]

/-! ## C9: canvas height growth (bot.js captionImage geometry) -/

/-- minLineHeight = (fontSize * 1.4)|0 with fontSize 14 (src/bot.js line
180); the double 1.4 is within 1e-16 of 7/5 and both truncate to 19. -/
def minLineHeightBot : ℚ :=
  jsTrunc (14 * (7 / 5))

/-- captionHeight of the gd variants (src/bot.js lines 231-235): each line
height is floored at minLineHeight, and the total plus inter-line spacing
plus the vertical caption margin is truncated with `|0`. -/
def captionHeightGd (heights : List ℚ) (minLineHeight lineSpacing captionMarginVert : ℚ) : ℚ :=
  jsTrunc ((heights.map (fun x => max x minLineHeight)).sum
    + ((heights.length : ℚ) - 1) * lineSpacing + captionMarginVert)

/-- finalImageHeight of captionImage in src/bot.js (lines 189-237): the
scaled comic height plus twice the outer padding (20) plus the caption
height with the hard-coded minLineHeight 19, lineSpacing 2 and
captionMarginVert = outerPadding + 4 = 24. -/
def captionImageCanvasHeight (imageWidth imageHeight : ℚ) (heights : List ℚ) : ℚ :=
  scaledComicHeight 600 imageWidth imageHeight + 2 * 20
    + captionHeightGd heights minLineHeightBot 2 24

lemma minLineHeightBot_eq : minLineHeightBot = 19 := by
  norm_num [minLineHeightBot, jsTrunc]

lemma sumMax_nonneg (heights : List ℚ) (m : ℚ) (hm : 0 ≤ m) :
    0 ≤ (heights.map (fun x => max x m)).sum := by
  apply List.sum_nonneg
  intro x hx
  rcases List.mem_map.mp hx with ⟨y, _, rfl⟩
  exact le_trans hm (le_max_right y m)

lemma captionHeightGd_arg_nonneg (heights : List ℚ) (m sp mg : ℚ)
    (hm : 0 ≤ m) (hsp : 0 ≤ sp) (hmg : 0 ≤ mg) (hne : heights ≠ []) :
    0 ≤ (heights.map (fun x => max x m)).sum
      + ((heights.length : ℚ) - 1) * sp + mg := by
  have h1 := sumMax_nonneg heights m hm
  have h2 : (1 : ℚ) ≤ (heights.length : ℚ) := by
    exact_mod_cast List.length_pos.mpr hne
  have h3 : 0 ≤ ((heights.length : ℚ) - 1) * sp := mul_nonneg (by linarith) hsp
  linarith

lemma captionHeightGd_nonneg (heights : List ℚ) (m sp mg : ℚ)
    (hm : 0 ≤ m) (hsp : 0 ≤ sp) (hmg : 0 ≤ mg) (hne : heights ≠ []) :
    0 ≤ captionHeightGd heights m sp mg := by
  have ha := captionHeightGd_arg_nonneg heights m sp mg hm hsp hmg hne
  unfold captionHeightGd jsTrunc
  rw [if_pos ha]
  exact_mod_cast Int.floor_nonneg.mpr ha

lemma captionHeightGd_mono_min (heights : List ℚ) (m m2 sp mg : ℚ)
    (hm : 0 ≤ m) (hmm : m ≤ m2) (hsp : 0 ≤ sp) (hmg : 0 ≤ mg) (hne : heights ≠ []) :
    captionHeightGd heights m sp mg ≤ captionHeightGd heights m2 sp mg := by
  have hsum : (heights.map (fun x => max x m)).sum
      ≤ (heights.map (fun x => max x m2)).sum :=
    List.sum_le_sum (fun i _ => max_le_max (le_refl i) hmm)
  have ha := captionHeightGd_arg_nonneg heights m sp mg hm hsp hmg hne
  have ha2 := captionHeightGd_arg_nonneg heights m2 sp mg (le_trans hm hmm) hsp hmg hne
  unfold captionHeightGd jsTrunc
  rw [if_pos ha, if_pos ha2]
  exact_mod_cast Int.floor_le_floor (by linarith)

lemma captionHeightGd_append_lt (heights : List ℚ) (hb : ℚ) (hne : heights ≠ []) :
    captionHeightGd heights 19 2 24 < captionHeightGd (heights ++ [hb]) 19 2 24 := by
  have hx0 := captionHeightGd_arg_nonneg heights 19 2 24 (by norm_num) (by norm_num)
    (by norm_num) hne
  have hSnew : ((heights ++ [hb]).map (fun x => max x (19 : ℚ))).sum
      = (heights.map (fun x => max x (19 : ℚ))).sum + max hb 19 := by
    rw [List.map_append, List.sum_append]
    simp
  have hlen : (((heights ++ [hb]).length : ℕ) : ℚ) = (heights.length : ℚ) + 1 := by
    push_cast [List.length_append, List.length_singleton]
    ring
  have harg : ((heights ++ [hb]).map (fun x => max x (19 : ℚ))).sum
        + (((heights ++ [hb]).length : ℚ) - 1) * 2 + 24
      = ((heights.map (fun x => max x (19 : ℚ))).sum
        + ((heights.length : ℚ) - 1) * 2 + 24) + (max hb 19 + 2) := by
    rw [hSnew, hlen]
    ring
  have hmax : (19 : ℚ) ≤ max hb 19 := le_max_right hb 19
  unfold captionHeightGd jsTrunc
  rw [harg, if_pos hx0, if_pos (by linarith)]
  have h1 : ⌊((heights.map (fun x => max x (19 : ℚ))).sum
      + ((heights.length : ℚ) - 1) * 2 + 24) + (21 : ℚ)⌋
      = ⌊(heights.map (fun x => max x (19 : ℚ))).sum
        + ((heights.length : ℚ) - 1) * 2 + 24⌋ + 21 := by
    exact_mod_cast Int.floor_add_int _ 21
  have h2 : ⌊((heights.map (fun x => max x (19 : ℚ))).sum
      + ((heights.length : ℚ) - 1) * 2 + 24) + (21 : ℚ)⌋
      ≤ ⌊((heights.map (fun x => max x (19 : ℚ))).sum
        + ((heights.length : ℚ) - 1) * 2 + 24) + (max hb 19 + 2)⌋ :=
    Int.floor_le_floor (by linarith)
  have : (⌊(heights.map (fun x => max x (19 : ℚ))).sum
      + ((heights.length : ℚ) - 1) * 2 + 24⌋ : ℤ)
      < ⌊((heights.map (fun x => max x (19 : ℚ))).sum
        + ((heights.length : ℚ) - 1) * 2 + 24) + (max hb 19 + 2)⌋ := by
    omega
  exact_mod_cast this

/-- C9: for the geometry of captionImage in src/bot.js with its fixed
configuration, appending a line of positive height strictly increases the
final canvas height; the caption block height is monotone in minLineHeight;
and a non-empty caption never decreases the canvas height below the padded
image height. -/
theorem C9_canvasHeight_monotone (imageWidth imageHeight hb m m2 sp mg : ℚ)
    (heights : List ℚ) (hne : heights ≠ []) (hhb : 0 < hb) (hm : 0 ≤ m)
    (hmm : m ≤ m2) (hsp : 0 ≤ sp) (hmg : 0 ≤ mg) :
    captionImageCanvasHeight imageWidth imageHeight heights
        < captionImageCanvasHeight imageWidth imageHeight (heights ++ [hb]) ∧
    captionHeightGd heights m sp mg ≤ captionHeightGd heights m2 sp mg ∧
    scaledComicHeight 600 imageWidth imageHeight + 2 * 20
        ≤ captionImageCanvasHeight imageWidth imageHeight heights := by
  refine ⟨?_, ?_, ?_⟩
  · unfold captionImageCanvasHeight
    rw [minLineHeightBot_eq]
    have := captionHeightGd_append_lt heights hb hne
    linarith
  · exact captionHeightGd_mono_min heights m m2 sp mg hm hmm hsp hmg hne
  · unfold captionImageCanvasHeight
    rw [minLineHeightBot_eq]
    have := captionHeightGd_nonneg heights 19 2 24 (by norm_num) (by norm_num)
      (by norm_num) hne
    linarith

/-- Witness for C9 at one line of height 20, appending a line of height 30. -/
theorem C9_canvasHeight_monotone_witness :
    captionImageCanvasHeight 1200 800 [20]
        < captionImageCanvasHeight 1200 800 ([20] ++ [30]) ∧
    captionHeightGd [20] 0 2 24 ≤ captionHeightGd [20] 5 2 24 ∧
    scaledComicHeight 600 1200 800 + 2 * 20 ≤ captionImageCanvasHeight 1200 800 [20] :=
  C9_canvasHeight_monotone 1200 800 30 0 5 2 24 [20] (by norm_num) (by norm_num)
    (by norm_num) (by norm_num) (by norm_num) (by norm_num)

end YorkerBot
